import Mathlib

/-!
Verification of the Qodex retrieval-and-grounding pipeline
(`backend/app/api/routes/chat.py` and `backend/app/core/research_modes.py`).

Strings are modelled as `List Char`; Python float scores are modelled as
rationals (`ℚ`) — the constants 0.40, 0.30, 0.25, 0.15, 0.05 are exact in
both representations and every comparison the pipeline performs is on sums
of these constants with raw scores, so the rational model tracks the branch
structure of the code.  External collaborators (the vector index, the
instructor index kept by the document service, the rewrite model) are
parameters, mirroring the route's calls into them.
-/

set_option maxRecDepth 40000

namespace Qodex

/-- Python whitespace as used by `str.strip()` (ASCII fragment). -/
def isPySpace (c : Char) : Bool :=
  c = ' ' || c = '\t' || c = '\n' || c = '\r' || c = '\x0b' || c = '\x0c'

/-- `str.strip()`: drop leading and trailing whitespace. -/
def pyStrip (l : List Char) : List Char :=
  ((l.dropWhile isPySpace).reverse.dropWhile isPySpace).reverse

/-- One attempted match of the tail of `_CITATION_RE = \[\d+\]` after an
opening bracket was seen: one or more digits directly followed by `]`.
Returns the remaining input on success. -/
def tryCitation (l : List Char) : Option (List Char) :=
  if l.takeWhile Char.isDigit = [] then none
  else
    match l.dropWhile Char.isDigit with
    | ']' :: r => some r
    | _ => none

theorem tryCitation_length {l r : List Char} (h : tryCitation l = some r) :
    r.length + 2 ≤ l.length := by
  unfold tryCitation at h
  split at h
  · exact absurd h (by simp)
  · rename_i hne
    split at h
    · rename_i heq
      cases h
      have hl : l.takeWhile Char.isDigit ++ l.dropWhile Char.isDigit = l :=
        List.takeWhile_append_dropWhile Char.isDigit l
      have h1 : 1 ≤ (l.takeWhile Char.isDigit).length := by
        cases hh : l.takeWhile Char.isDigit with
        | nil => exact absurd hh hne
        | cons a t => simp
      have : (l.takeWhile Char.isDigit).length + (l.dropWhile Char.isDigit).length
          = l.length := by
        rw [← List.length_append, hl]
      rw [heq] at this
      simp at this
      omega
    · exact absurd h (by simp)

/-- `_CITATION_RE.sub('', s)`: remove every left-to-right non-overlapping
match of `\[\d+\]` (a single pass, exactly as `re.sub` performs it). -/
def stripCitations (l : List Char) : List Char :=
  match l with
  | [] => []
  | c :: rest =>
    if c = '[' then
      match h : tryCitation rest with
      | some r => stripCitations r
      | none => c :: stripCitations rest
    else c :: stripCitations rest
termination_by l.length
decreasing_by
  · have := tryCitation_length h
    simp
    omega
  · simp
  · simp

/-- Whether the text still contains a match of `\[\d+\]`. -/
def hasCitation (l : List Char) : Bool :=
  match l with
  | [] => false
  | c :: rest =>
    if c = '[' then (tryCitation rest).isSome || hasCitation rest
    else hasCitation rest

/-- `re.sub(r'  +', ' ', s)` — every maximal run of spaces collapses to a
single space (runs of length one are left as they are, so the result is the
same as collapsing every run).  The flag records that we are inside a run
whose first space has already been emitted. -/
def collapseAux : Bool → List Char → List Char
  | _, [] => []
  | inRun, c :: rest =>
    if c = ' ' then
      if inRun then collapseAux true rest
      else ' ' :: collapseAux true rest
    else c :: collapseAux false rest

def collapseSpaces (l : List Char) : List Char := collapseAux false l

/-- `s.rsplit(' ', 1)[0]`: everything before the last space, or the whole
string when it contains no space. -/
def cutAtLastSpace (l : List Char) : List Char :=
  if l.contains ' ' then ((l.reverse.dropWhile (fun c => c ≠ ' ')).tail).reverse
  else l

def truncationMarker : List Char := " [earlier response truncated]".toList

inductive MessageRole where
  | user
  | assistant
  | system
deriving DecidableEq, Repr

/-- The fields of `Message` the sanitizer reads or reconstructs.  The
sanitizer rebuilds assistant messages from `id`, `content`, `role` and
`timestamp` only, so every other optional field (modelled here by
`provider`) is reset to `none`. -/
structure Message where
  id : String
  content : List Char
  role : MessageRole
  timestamp : Nat
  provider : Option String
deriving DecidableEq, Repr

def MAX_CHARS : Nat := 300

/-- The assistant branch of `_sanitize_history_messages`, line for line:
strip citation markers, `strip()`, collapse space runs, and truncate past
300 characters at the last space, appending the literal marker. -/
def sanitizeContent (content : List Char) : List Char :=
  let c1 := collapseSpaces (pyStrip (stripCitations content))
  if c1.length > MAX_CHARS then cutAtLastSpace (c1.take MAX_CHARS) ++ truncationMarker
  else c1

def sanitizeMessage (msg : Message) : Message :=
  if msg.role = MessageRole.assistant then
    { id := msg.id
      content := sanitizeContent msg.content
      role := msg.role
      timestamp := msg.timestamp
      provider := none }
  else msg

/-- `_sanitize_history_messages`. -/
def sanitizeHistoryMessages (messages : List Message) : List Message :=
  messages.map sanitizeMessage

/-! ## Query terms and entity boost (`_extract_query_terms`, `_compute_entity_boost`) -/

def stopWords : List (List Char) :=
  ["the", "and", "for", "are", "but", "not", "you", "all", "can",
   "had", "her", "was", "one", "our", "out", "has", "his", "how",
   "its", "may", "new", "now", "old", "see", "way", "who", "did",
   "get", "let", "say", "she", "too", "use", "what", "when", "where",
   "which", "while", "with", "this", "that", "from", "about", "some",
   "them", "then", "than", "into", "over", "such", "list", "give",
   "tell", "show", "find", "does", "other", "more", "also"].map String.toList

/-- Maximal runs of characters satisfying `p` (the semantics of
`re.findall(r'[X]+', s)` for a character class `X`). -/
def runsAux (p : Char → Bool) : List Char → List Char → List (List Char)
  | [], cur => if cur = [] then [] else [cur.reverse]
  | c :: rest, cur =>
    if p c then runsAux p rest (c :: cur)
    else if cur = [] then runsAux p rest []
    else cur.reverse :: runsAux p rest []

def runsOf (p : Char → Bool) (l : List Char) : List (List Char) := runsAux p l []

def isLowerAlpha (c : Char) : Bool := 'a' ≤ c && c ≤ 'z'

def isAsciiAlpha (c : Char) : Bool := ('a' ≤ c && c ≤ 'z') || ('A' ≤ c && c ≤ 'Z')

/-- `_extract_query_terms`: `[a-z]+` runs of the lower-cased query, at
least 3 characters long and not stop words. -/
def extractQueryTerms (query : List Char) : List (List Char) :=
  (runsOf isLowerAlpha (query.map Char.toLower)).filter
    (fun w => 3 ≤ w.length && !stopWords.contains w)

/-- Python's `needle in hay` on strings: contiguous substring containment
(the empty needle is contained in everything). -/
def isSubstringOf (needle hay : List Char) : Bool :=
  needle.isPrefixOf hay ||
  match hay with
  | [] => false
  | _ :: t => isSubstringOf needle t

/-- `_compute_entity_boost`.  `t in content_lower` is substring
containment; the ratio test uses exact rational division in place of the
Python float quotient (identical branch outcomes at these magnitudes). -/
def computeEntityBoost (contentLower : List Char) (queryTerms : List (List Char)) : ℚ :=
  if queryTerms = [] then 0
  else
    let found := (queryTerms.filter (fun t => isSubstringOf t contentLower)).length
    if found = 0 then 0
    else
      let frac : ℚ := (found : ℚ) / (queryTerms.length : ℚ)
      if 1 ≤ frac then 0.30
      else if 0.5 ≤ frac then 0.15
      else 0.05

/-! ## Research modes (`research_modes.py`) -/

inductive ResearchMode where
  | quick
  | enhanced
  | deep
deriving DecidableEq, Repr

/-- The fields of `ResearchModeConfig` the retrieval pipeline reads. -/
structure ResearchModeConfig where
  top_k : Nat
  min_score : ℚ
deriving DecidableEq, Repr

/-- `RESEARCH_MODE_DEFINITIONS`, restricted to the retrieval fields. -/
def researchModeConfig : ResearchMode → ResearchModeConfig
  | ResearchMode.quick => { top_k := 7, min_score := 0.40 }
  | ResearchMode.enhanced => { top_k := 12, min_score := 0.30 }
  | ResearchMode.deep => { top_k := 16, min_score := 0.25 }

/-- `_MIN_SCORE`, the fallback used only if a config lacked `min_score`
(every config defines it, so `getattr` always finds the per-mode value). -/
def MIN_SCORE : ℚ := 0.40

/-! ## Search results and the re-ranking / thresholding loop
(`stream_chat`, lines 400–462) -/

/-- The metadata dictionary of one Pinecone match, with the keys the route
reads.  `content` models `metadata.get("content", "")` (absent key and
empty string coincide); `document_id` and `filename` keep their absence
observable because the route applies defaults to them. -/
structure SearchMetadata where
  document_id : Option String
  filename : Option (List Char)
  content : List Char
deriving DecidableEq, Repr

/-- One raw search result `{id, score, metadata}`.  `score` models
`result.get("score", 0)` with absence folded into `0`. -/
structure SearchResult where
  id : String
  score : ℚ
  metadata : Option SearchMetadata
deriving DecidableEq, Repr

def resultBoost (queryTerms : List (List Char)) (m : SearchMetadata) : ℚ :=
  computeEntityBoost (m.content.map Char.toLower) queryTerms

def resultEffectiveScore (queryTerms : List (List Char)) (r : SearchResult)
    (m : SearchMetadata) : ℚ :=
  r.score + resultBoost queryTerms m

/-- Threshold selection for one candidate (lines 433–440). -/
def candidateThreshold (preFiltered : Bool) (minScore boost : ℚ) : ℚ :=
  if preFiltered then 0
  else if 0 < boost then 0
  else minScore

/-- Whether one raw result enters `doc_groups`: results without metadata
are skipped (`if not metadata: continue`), everything else is kept iff its
effective score strictly exceeds the selected threshold. -/
def resultRetained (preFiltered : Bool) (minScore : ℚ) (queryTerms : List (List Char))
    (r : SearchResult) : Bool :=
  match r.metadata with
  | none => false
  | some m =>
    candidateThreshold preFiltered minScore (resultBoost queryTerms m)
      < resultEffectiveScore queryTerms r m

/-- One entry of `doc_groups`. -/
structure DocGroup where
  filename : List Char
  chunks : List (List Char)
  best_score : ℚ
  best_chunk_id : String
  best_preview : List Char
deriving DecidableEq, Repr

def previewOf (content : List Char) : List Char :=
  if content.length > 150 then content.take 150 ++ "...".toList else content

/-- In-place update of the value stored under `key`, preserving insertion
order — the behaviour of mutating a Python dict entry. -/
def updateGroup (key : String) (f : DocGroup → DocGroup) :
    List (String × DocGroup) → List (String × DocGroup)
  | [] => []
  | (k, g) :: rest =>
    if k = key then (k, f g) :: rest else (k, g) :: updateGroup key f rest

/-- The body of the `for result in search_results` loop folding one result
into `doc_groups` (insertion-ordered association list, like a dict). -/
def foldResult (preFiltered : Bool) (minScore : ℚ) (queryTerms : List (List Char))
    (groups : List (String × DocGroup)) (r : SearchResult) : List (String × DocGroup) :=
  match r.metadata with
  | none => groups
  | some m =>
    if resultRetained preFiltered minScore queryTerms r then
      let eff := resultEffectiveScore queryTerms r m
      let docId := m.document_id.getD r.id
      let filename := m.filename.getD "Unknown".toList
      match groups.lookup docId with
      | none =>
        groups ++ [(docId,
          { filename := filename
            chunks := [m.content]
            best_score := eff
            best_chunk_id := r.id
            best_preview := previewOf m.content })]
      | some _ =>
        updateGroup docId (fun g =>
          let g' := { g with chunks := g.chunks ++ [m.content] }
          if g'.best_score < eff then
            { g' with best_score := eff, best_chunk_id := r.id,
                      best_preview := previewOf m.content }
          else g') groups
    else groups

def docGroupsOf (preFiltered : Bool) (minScore : ℚ) (queryTerms : List (List Char))
    (results : List SearchResult) : List (String × DocGroup) :=
  results.foldl (foldResult preFiltered minScore queryTerms) []

/-- The comparison `sorted(..., key=best_score, reverse=True)` uses: `a`
may precede `b` iff `a`'s best score is at least `b`'s.  `mergeSort` with
this relation is the stable descending sort Python performs. -/
def groupLe (a b : String × DocGroup) : Bool := decide (b.2.best_score ≤ a.2.best_score)

/-- `sorted_groups`: stable sort by best score descending, truncated to the
research mode's `top_k`. -/
def rankedGroups (mode : ResearchMode) (preFiltered : Bool) (queryTerms : List (List Char))
    (results : List SearchResult) : List (String × DocGroup) :=
  ((docGroupsOf preFiltered (researchModeConfig mode).min_score queryTerms results).mergeSort
    groupLe).take (researchModeConfig mode).top_k

/-- Python's `round(x, 3)`: nearest multiple of 1/1000, ties to even. -/
def roundHalfEven (y : ℚ) : ℤ :=
  let n := ⌊y⌋
  if y - n < 1/2 then n
  else if 1/2 < y - n then n + 1
  else if Even n then n else n + 1

def roundTo3 (x : ℚ) : ℚ := (roundHalfEven (x * 1000) : ℚ) / 1000

/-- `DocumentSource` as emitted in the sources event. -/
structure DocumentSource where
  id : String
  filename : List Char
  score : ℚ
  chunk_preview : List Char
  citation_number : Nat
  chunk_id : String
deriving DecidableEq, Repr

/-- The `for doc_id, group in sorted_groups` loop, sources side:
`citation_number` starts at 1 and increments per group. -/
def buildSources : Nat → List (String × DocGroup) → List DocumentSource
  | _, [] => []
  | n, (docId, g) :: rest =>
    { id := docId
      filename := g.filename
      score := roundTo3 g.best_score
      chunk_preview := g.best_preview
      citation_number := n
      chunk_id := g.best_chunk_id } :: buildSources (n + 1) rest

/-- One `context_parts` entry: combined chunks, citation markers stripped,
space runs collapsed, stripped, under the `[Source N - filename]:` header. -/
def renderGroup (n : Nat) (g : DocGroup) : List Char :=
  let combined := List.intercalate "\n\n".toList g.chunks
  let combined := pyStrip (collapseSpaces (stripCitations combined))
  "[Source ".toList ++ (toString n).toList ++ " - ".toList ++ g.filename
    ++ "]:\n".toList ++ combined

def buildContextParts : Nat → List (String × DocGroup) → List (List Char)
  | _, [] => []
  | n, (_, g) :: rest => renderGroup n g :: buildContextParts (n + 1) rest

/-- The fixed advisory block used when nothing scored high enough. -/
def noSourcesAdvisory : List Char :=
  ("[No relevant sources found in the knowledge base for this query.]\n\n"
    ++ "Guidelines:\n"
    ++ "- Do NOT fabricate or guess content that might be in the documents\n"
    ++ "- Let the user know that no matching documents were found\n"
    ++ "- Suggest they rephrase their question or check which documents are uploaded\n"
    ++ "- You may still answer from general knowledge, but clearly state you are doing so").toList

/-- Lines 405–506 of `stream_chat` on a successful search: re-rank, group,
sort, truncate, and emit `(context, sources)`. -/
def processSearchResults (mode : ResearchMode) (preFiltered : Bool)
    (queryTerms : List (List Char)) (results : List SearchResult) :
    List Char × List DocumentSource :=
  let gs := rankedGroups mode preFiltered queryTerms results
  let parts := buildContextParts 1 gs
  let context :=
    if parts = [] then noSourcesAdvisory
    else List.intercalate "\n\n---\n\n".toList parts
  (context, buildSources 1 gs)

/-! ## Awaiting the retrieval task (`stream_chat`, lines 397–525) -/

/-- The user-facing degraded-service message. -/
def kbUnavailableMessage : List Char :=
  ("The knowledge base is temporarily unavailable. "
    ++ "Please try again later or contact "
    ++ "openclimatecurriculum@gsb.columbia.edu for assistance.").toList

/-- How `await rag_task` can end: a result list, `asyncio.CancelledError`,
or any other exception. -/
inductive RagAwaitResult where
  | ok (results : List SearchResult)
  | cancelled
  | failed
deriving DecidableEq, Repr

/-- What the rest of the turn observes. -/
inductive TurnOutcome where
  | errorResponse (msg : List Char)
  | proceed (sources : List DocumentSource) (context : Option (List Char))
deriving DecidableEq, Repr

/-- The `try / except asyncio.CancelledError / except Exception` dispatch
around `await rag_task`: success processes the results (context is always
set, possibly to the advisory block), cancellation proceeds with no sources
and no context, any other failure short-circuits the turn with the
degraded-service error event. -/
def resolveRagAwait (mode : ResearchMode) (preFiltered : Bool)
    (queryTerms : List (List Char)) : RagAwaitResult → TurnOutcome
  | RagAwaitResult.ok results =>
    let (context, sources) := processSearchResults mode preFiltered queryTerms results
    TurnOutcome.proceed sources (some context)
  | RagAwaitResult.cancelled => TurnOutcome.proceed [] none
  | RagAwaitResult.failed => TurnOutcome.errorResponse kbUnavailableMessage

/-! ## Entity extraction (`_extract_person_names`) -/

/-- `re.findall(r'[a-zA-Z]+', query)`: maximal alphabetic runs. -/
def alphaTokens (query : List Char) : List (List Char) :=
  runsOf isAsciiAlpha query

/-- `' '.join(tokens[i:i+n]).lower()`. -/
def normJoin (ws : List (List Char)) : List Char :=
  (List.intercalate [' '] ws).map Char.toLower

/-- The extractor's running state.  `found` and `used` mirror the Python
`found_names` set (first-insertion order) and `used_positions` set;
`accepted` additionally records each accepted window as (start, width) so
the non-overlap property can be stated. -/
structure ExtractState where
  found : List (List Char)
  used : List Nat
  accepted : List (Nat × Nat)
deriving DecidableEq, Repr

def insertFound (s : List Char) (found : List (List Char)) : List (List Char) :=
  if s ∈ found then found else found ++ [s]

/-- One iteration of either window loop: skip if any of the `n` positions
starting at `i` is already consumed, otherwise accept the normalized window
when the instructor index contains it, consuming its positions. -/
def passStep (tokens idx : List (List Char)) (n : Nat) (st : ExtractState)
    (i : Nat) : ExtractState :=
  if (List.range n).any (fun k => (i + k) ∈ st.used) then st
  else if normJoin ((tokens.drop i).take n) ∈ idx then
    { found := insertFound (normJoin ((tokens.drop i).take n)) st.found
      used := st.used ++ (List.range n).map (i + ·)
      accepted := st.accepted ++ [(i, n)] }
  else st

/-- `for i in range(len(tokens) - (n-1))` — for 3-word windows this is
`range(len(tokens) - 2)`, for 2-word windows `range(len(tokens) - 1)`
(truncated subtraction matches Python's empty range on short inputs). -/
def runPass (tokens idx : List (List Char)) (n : Nat) (st : ExtractState) : ExtractState :=
  (List.range (tokens.length - (n - 1))).foldl (passStep tokens idx n) st

/-- `_extract_person_names` with its ghost window log: fewer than two
alphabetic tokens or an empty instructor index short-circuit to nothing;
otherwise the 3-word pass runs before the 2-word pass. -/
def extractRun (query : List Char) (idx : List (List Char)) : ExtractState :=
  if (alphaTokens query).length < 2 then { found := [], used := [], accepted := [] }
  else if idx = [] then { found := [], used := [], accepted := [] }
  else runPass (alphaTokens query) idx 2
    (runPass (alphaTokens query) idx 3 { found := [], used := [], accepted := [] })

def extractPersonNames (query : List Char) (idx : List (List Char)) : List (List Char) :=
  (extractRun query idx).found

/-! ## Entity-first document filtering (`stream_chat`, lines 349–368) -/

/-- `search_doc_ids = request.document_ids if request.document_ids else None`:
an absent or empty caller list leaves the filter unset. -/
def effectiveRequestDocIds (requestDocIds : Option (List String)) : Option (List String) :=
  match requestDocIds with
  | none => none
  | some ids => if ids = [] then none else some ids

/-- The document filter handed to `search_documents`: caller-supplied IDs
win; otherwise, when entity extraction finds names, the documents of the
first detected person are looked up (`get_documents_by_instructor`, held by
the document service and modelled as the parameter `docsByInstructor`) and
used iff that lookup is non-empty. -/
def searchDocIdsFor (requestDocIds : Option (List String)) (message : List Char)
    (idx : List (List Char)) (docsByInstructor : List Char → List String) :
    Option (List String) :=
  match effectiveRequestDocIds requestDocIds with
  | some ids => some ids
  | none =>
    match extractPersonNames message idx with
    | [] => none
    | first :: _ =>
      let docs := docsByInstructor first
      if docs = [] then none else some docs

/-- `pre_filtered = search_doc_ids is not None`. -/
def preFilteredFor (requestDocIds : Option (List String)) (message : List Char)
    (idx : List (List Char)) (docsByInstructor : List Char → List String) : Bool :=
  (searchDocIdsFor requestDocIds message idx docsByInstructor).isSome

/-! ## Query rewriting (`_rewrite_search_query`) -/

/-- `s.strip('"')`: drop leading and trailing double-quote characters. -/
def stripQuotes (l : List Char) : List Char :=
  ((l.dropWhile (fun c => c = '"')).reverse.dropWhile (fun c => c = '"')).reverse

/-- How the external Mistral call can end: an exception (any kind), or a
completed response whose message content is `text`. -/
inductive RewriteCallResult where
  | failed
  | ok (text : List Char)
deriving DecidableEq, Repr

/-- `_rewrite_search_query`: no prior user message or no Mistral key means
pass-through; an exception from the external call is swallowed and falls
back to the original; a returned text is stripped of whitespace and
surrounding quotes and used only if non-empty. -/
def rewriteSearchQuery (currentMessage : List Char) (contextMessages : List Message)
    (mistralKey : Option String) (call : RewriteCallResult) : List Char :=
  if (contextMessages.filter (fun m => m.role = MessageRole.user)) = [] then
    currentMessage
  else
    match mistralKey with
    | none => currentMessage
    | some _ =>
      match call with
      | RewriteCallResult.failed => currentMessage
      | RewriteCallResult.ok text =>
        let rewritten := stripQuotes (pyStrip text)
        if rewritten = [] then currentMessage else rewritten

/-! ## Boost-tier characterization -/

/-- The float ratio comparisons reduce to integer comparisons between the
number of matched terms and the total number of terms. -/
theorem computeEntityBoost_eq (contentLower : List Char) (queryTerms : List (List Char)) :
    computeEntityBoost contentLower queryTerms =
      (if (queryTerms.filter (fun t => isSubstringOf t contentLower)).length = 0 then 0
       else if queryTerms.length ≤
           (queryTerms.filter (fun t => isSubstringOf t contentLower)).length then 0.30
       else if queryTerms.length ≤
           2 * (queryTerms.filter (fun t => isSubstringOf t contentLower)).length then 0.15
       else 0.05) := by
  unfold computeEntityBoost
  by_cases hq : queryTerms = []
  · subst hq
    simp
  · simp only [if_neg hq]
    set k := (queryTerms.filter (fun t => isSubstringOf t contentLower)).length with hk
    by_cases hk0 : k = 0
    · simp [hk0]
    · have hn0 : 0 < queryTerms.length := by
        cases queryTerms with
        | nil => exact absurd rfl hq
        | cons a t => simp
      have hnq : (0 : ℚ) < (queryTerms.length : ℚ) := by exact_mod_cast hn0
      have h1 : ((1 : ℚ) ≤ (k : ℚ) / (queryTerms.length : ℚ)) ↔ queryTerms.length ≤ k := by
        rw [le_div_iff₀ hnq]
        simp only [one_mul]
        exact_mod_cast Iff.rfl
      have h2 : ((0.5 : ℚ) ≤ (k : ℚ) / (queryTerms.length : ℚ)) ↔
          queryTerms.length ≤ 2 * k := by
        rw [le_div_iff₀ hnq]
        constructor
        · intro h
          have : (queryTerms.length : ℚ) ≤ 2 * (k : ℚ) := by linarith
          exact_mod_cast this
        · intro h
          have : (queryTerms.length : ℚ) ≤ 2 * (k : ℚ) := by exact_mod_cast h
          linarith
      simp only [if_neg hk0]
      by_cases hc1 : queryTerms.length ≤ k
      · rw [if_pos (h1.mpr hc1), if_pos hc1]
      · rw [if_neg (fun h => hc1 (h1.mp h)), if_neg hc1]
        by_cases hc2 : queryTerms.length ≤ 2 * k
        · rw [if_pos (h2.mpr hc2), if_pos hc2]
        · rw [if_neg (fun h => hc2 (h2.mp h)), if_neg hc2]

/-- C3: the boost tiers.  `k` is the number of query terms occurring as
substrings of the lower-cased content, `n` the number of query terms. -/
theorem entityBoost_tiers (contentLower : List Char) (queryTerms : List (List Char)) :
    (computeEntityBoost contentLower queryTerms = 0.30 ↔
      (0 < queryTerms.length ∧
        (queryTerms.filter (fun t => isSubstringOf t contentLower)).length =
          queryTerms.length)) ∧
    (computeEntityBoost contentLower queryTerms = 0.15 ↔
      (0 < (queryTerms.filter (fun t => isSubstringOf t contentLower)).length ∧
        queryTerms.length ≤
          2 * (queryTerms.filter (fun t => isSubstringOf t contentLower)).length ∧
        (queryTerms.filter (fun t => isSubstringOf t contentLower)).length <
          queryTerms.length)) ∧
    (computeEntityBoost contentLower queryTerms = 0.05 ↔
      (0 < (queryTerms.filter (fun t => isSubstringOf t contentLower)).length ∧
        queryTerms.length >
          2 * (queryTerms.filter (fun t => isSubstringOf t contentLower)).length)) ∧
    (computeEntityBoost contentLower queryTerms = 0 ↔
      (queryTerms.filter (fun t => isSubstringOf t contentLower)).length = 0) ∧
    (computeEntityBoost contentLower queryTerms = 0 ∨
      computeEntityBoost contentLower queryTerms = 0.05 ∨
      computeEntityBoost contentLower queryTerms = 0.15 ∨
      computeEntityBoost contentLower queryTerms = 0.30) ∧
    (∀ (r : SearchResult) (m : SearchMetadata),
      resultEffectiveScore queryTerms r m = r.score + resultBoost queryTerms m) := by
  have hkn : (queryTerms.filter (fun t => isSubstringOf t contentLower)).length ≤
      queryTerms.length := List.length_filter_le _ _
  rw [computeEntityBoost_eq]
  set k := (queryTerms.filter (fun t => isSubstringOf t contentLower)).length with hk
  split_ifs with h1 h2 h3
  · exact ⟨iff_of_false (by norm_num) (by omega),
      iff_of_false (by norm_num) (by omega),
      iff_of_false (by norm_num) (by omega),
      iff_of_true rfl h1, Or.inl rfl, fun r m => rfl⟩
  · exact ⟨iff_of_true rfl ⟨by omega, by omega⟩,
      iff_of_false (by norm_num) (by omega),
      iff_of_false (by norm_num) (by omega),
      iff_of_false (by norm_num) h1,
      Or.inr (Or.inr (Or.inr rfl)), fun r m => rfl⟩
  · exact ⟨iff_of_false (by norm_num) (by omega),
      iff_of_true rfl ⟨by omega, by omega, by omega⟩,
      iff_of_false (by norm_num) (by omega),
      iff_of_false (by norm_num) h1,
      Or.inr (Or.inr (Or.inl rfl)), fun r m => rfl⟩
  · exact ⟨iff_of_false (by norm_num) (by omega),
      iff_of_false (by norm_num) (by omega),
      iff_of_true rfl ⟨by omega, by omega⟩,
      iff_of_false (by norm_num) h1,
      Or.inr (Or.inl rfl), fun r m => rfl⟩

/-! ## Threshold selection (C1, C2) -/

/-- C1: for a candidate carrying metadata, retention is equivalent to its
effective score strictly exceeding the threshold chosen by the precedence
pre-filtered → 0, positive boost → 0, else the research mode's floor
(0.40 quick / 0.30 enhanced / 0.25 deep). -/
theorem threshold_precedence (mode : ResearchMode) (preFiltered : Bool)
    (queryTerms : List (List Char)) (r : SearchResult) (m : SearchMetadata)
    (hm : r.metadata = some m) :
    resultRetained preFiltered (researchModeConfig mode).min_score queryTerms r = true ↔
      (if preFiltered then 0
       else if 0 < resultBoost queryTerms m then 0
       else match mode with
         | ResearchMode.quick => (0.40 : ℚ)
         | ResearchMode.enhanced => (0.30 : ℚ)
         | ResearchMode.deep => (0.25 : ℚ))
        < resultEffectiveScore queryTerms r m := by
  unfold resultRetained candidateThreshold
  rw [hm]
  cases mode <;> simp [researchModeConfig]

theorem threshold_precedence_witness :
    resultRetained false (researchModeConfig ResearchMode.quick).min_score []
      { id := "r1", score := 1,
        metadata := some { document_id := none, filename := none, content := [] } }
      = true :=
  (threshold_precedence ResearchMode.quick false [] _ _ rfl).mpr (by
    norm_num [resultBoost, resultEffectiveScore, computeEntityBoost])

/-- A raw candidate of a pre-filtered search that the loop drops: its raw
score is 0 and no query term matches, so its effective score is 0, which is
not strictly greater than the threshold 0. -/
def zeroScoreCandidate : SearchResult :=
  { id := "r0", score := 0,
    metadata := some { document_id := some "d0",
                       filename := some "syllabus.pdf".toList,
                       content := "hello world".toList } }

/-- C2 counterexample: in a pre-filtered search this raw candidate is not
retained and the emitted source list is empty, so a pre-filtered search
does not admit every raw candidate regardless of score. -/
theorem preFiltered_admits_all_cex :
    resultRetained true MIN_SCORE [] zeroScoreCandidate = false ∧
    (processSearchResults ResearchMode.quick true [] [zeroScoreCandidate]).2 = [] := by
  have hr : ∀ s : ℚ, resultRetained true s [] zeroScoreCandidate = false := by
    intro s
    simp only [resultRetained, candidateThreshold, resultEffectiveScore, resultBoost,
      computeEntityBoost, zeroScoreCandidate]
    norm_num
  refine ⟨hr MIN_SCORE, ?_⟩
  have hg : docGroupsOf true (researchModeConfig ResearchMode.quick).min_score []
      [zeroScoreCandidate] = [] := by
    unfold docGroupsOf
    have hm : zeroScoreCandidate.metadata =
        some { document_id := some "d0", filename := some "syllabus.pdf".toList,
               content := "hello world".toList } := rfl
    simp [foldResult, hr, hm]
  show buildSources 1 (rankedGroups ResearchMode.quick true [] [zeroScoreCandidate]) = []
  unfold rankedGroups
  rw [hg, List.mergeSort_nil]
  rfl

/-- C2 amended: a pre-filtered search admits exactly the metadata-carrying
candidates whose effective score is strictly positive (the threshold is 0,
but the comparison stays strict). -/
theorem preFiltered_admits_positive (minScore : ℚ) (queryTerms : List (List Char))
    (r : SearchResult) (m : SearchMetadata) (hm : r.metadata = some m) :
    resultRetained true minScore queryTerms r = true ↔
      0 < resultEffectiveScore queryTerms r m := by
  unfold resultRetained candidateThreshold
  rw [hm]
  simp

theorem preFiltered_admits_positive_witness :
    resultRetained true MIN_SCORE []
      { id := "r1", score := 0.2,
        metadata := some { document_id := none, filename := none, content := [] } }
      = true :=
  (preFiltered_admits_positive MIN_SCORE [] _ _ rfl).mpr (by
    norm_num [resultBoost, resultEffectiveScore, computeEntityBoost])

/-! ## Citation numbering (C4) -/

theorem buildSources_map_citation (gs : List (String × DocGroup)) :
    ∀ n, (buildSources n gs).map DocumentSource.citation_number =
      List.range' n gs.length := by
  induction gs with
  | nil => intro n; rfl
  | cons g rest ih =>
    intro n
    simp only [buildSources, List.map_cons, List.length_cons, List.range'_succ]
    exact congrArg _ (ih (n + 1))

theorem buildSources_map_id (gs : List (String × DocGroup)) :
    ∀ n, (buildSources n gs).map DocumentSource.id = gs.map Prod.fst := by
  induction gs with
  | nil => intro n; rfl
  | cons g rest ih =>
    intro n
    simp only [buildSources, List.map_cons]
    exact congrArg _ (ih (n + 1))

theorem buildSources_length (gs : List (String × DocGroup)) :
    ∀ n, (buildSources n gs).length = gs.length := by
  induction gs with
  | nil => intro n; rfl
  | cons g rest ih =>
    intro n
    simp only [buildSources, List.length_cons]
    exact congrArg _ (ih (n + 1))

theorem groupLe_trans (a b c : String × DocGroup) :
    groupLe a b = true → groupLe b c = true → groupLe a c = true := by
  unfold groupLe
  simp only [decide_eq_true_eq]
  intro h1 h2
  exact le_trans h2 h1

theorem groupLe_total (a b : String × DocGroup) :
    (groupLe a b || groupLe b a) = true := by
  unfold groupLe
  rcases le_total a.2.best_score b.2.best_score with h | h <;> simp [h]

theorem rankedGroups_sorted (mode : ResearchMode) (preFiltered : Bool)
    (queryTerms : List (List Char)) (results : List SearchResult) :
    List.Pairwise (fun a b => b.2.best_score ≤ a.2.best_score)
      (rankedGroups mode preFiltered queryTerms results) := by
  have hs := List.sorted_mergeSort groupLe_trans groupLe_total
    (docGroupsOf preFiltered (researchModeConfig mode).min_score queryTerms results)
  have hp : List.Pairwise (fun a b => b.2.best_score ≤ a.2.best_score)
      ((docGroupsOf preFiltered (researchModeConfig mode).min_score queryTerms
        results).mergeSort groupLe) := by
    refine hs.imp ?_
    intro a b h
    simpa [groupLe] using h
  exact hp.sublist (List.take_sublist _ _)

/-- C4: the emitted sources carry citation numbers 1..N with no gaps or
repetitions, N is the group count truncated to the mode's `top_k`, and the
numbers are assigned along the best-score-descending order of the
truncated document groups. -/
theorem citation_numbers_contiguous (mode : ResearchMode) (preFiltered : Bool)
    (queryTerms : List (List Char)) (results : List SearchResult)
    (hne : (processSearchResults mode preFiltered queryTerms results).2 ≠ []) :
    (processSearchResults mode preFiltered queryTerms results).2.map
        DocumentSource.citation_number =
      List.range' 1
        (processSearchResults mode preFiltered queryTerms results).2.length ∧
    (processSearchResults mode preFiltered queryTerms results).2.length =
      min (researchModeConfig mode).top_k
        (docGroupsOf preFiltered (researchModeConfig mode).min_score queryTerms
          results).length ∧
    (processSearchResults mode preFiltered queryTerms results).2.map
        DocumentSource.id =
      (rankedGroups mode preFiltered queryTerms results).map Prod.fst ∧
    List.Pairwise (fun a b => b.2.best_score ≤ a.2.best_score)
      (rankedGroups mode preFiltered queryTerms results) := by
  have h2 : (processSearchResults mode preFiltered queryTerms results).2 =
      buildSources 1 (rankedGroups mode preFiltered queryTerms results) := rfl
  refine ⟨?_, ?_, ?_, rankedGroups_sorted mode preFiltered queryTerms results⟩
  · rw [h2, buildSources_map_citation, buildSources_length]
  · rw [h2, buildSources_length]
    unfold rankedGroups
    rw [List.length_take, (List.mergeSort_perm _ groupLe).length_eq]
  · rw [h2, buildSources_map_id]

/-- A retained one-candidate input used to witness the citation theorem. -/
def halfScoreCandidate : SearchResult :=
  { id := "r1", score := 0.5,
    metadata := some { document_id := some "dA",
                       filename := some "fa".toList,
                       content := "aaa".toList } }

theorem halfScoreCandidate_sources :
    (processSearchResults ResearchMode.quick false [] [halfScoreCandidate]).2 =
      [{ id := "dA", filename := "fa".toList, score := 0.5,
         chunk_preview := "aaa".toList, citation_number := 1, chunk_id := "r1" }] := by
  have hm : halfScoreCandidate.metadata =
      some { document_id := some "dA", filename := some "fa".toList,
             content := "aaa".toList } := rfl
  have hr : resultRetained false (researchModeConfig ResearchMode.quick).min_score []
      halfScoreCandidate = true := by
    simp only [resultRetained, candidateThreshold, resultEffectiveScore, resultBoost,
      computeEntityBoost, halfScoreCandidate, researchModeConfig]
    norm_num
  have hid : halfScoreCandidate.id = "r1" := rfl
  have hsc : halfScoreCandidate.score = 0.5 := rfl
  have hg : docGroupsOf false (researchModeConfig ResearchMode.quick).min_score []
      [halfScoreCandidate] =
      [("dA", { filename := "fa".toList, chunks := ["aaa".toList], best_score := 0.5,
                best_chunk_id := "r1", best_preview := "aaa".toList })] := by
    unfold docGroupsOf
    rw [List.foldl_cons, List.foldl_nil]
    simp only [foldResult, hm, hr, if_true, resultEffectiveScore, resultBoost,
      computeEntityBoost, hid, hsc, List.lookup_nil, previewOf]
    norm_num
  have hround : roundTo3 0.5 = (0.5 : ℚ) := by
    unfold roundTo3 roundHalfEven
    norm_num
  show buildSources 1 (rankedGroups ResearchMode.quick false [] [halfScoreCandidate]) = _
  unfold rankedGroups
  rw [hg, List.mergeSort_singleton]
  show buildSources 1 [("dA", _)] = _
  simp [buildSources, hround]

theorem citation_numbers_contiguous_witness :
    (processSearchResults ResearchMode.quick false [] [halfScoreCandidate]).2.map
        DocumentSource.citation_number =
      List.range' 1
        (processSearchResults ResearchMode.quick false [] [halfScoreCandidate]).2.length ∧
    (processSearchResults ResearchMode.quick false [] [halfScoreCandidate]).2.length =
      min (researchModeConfig ResearchMode.quick).top_k
        (docGroupsOf false (researchModeConfig ResearchMode.quick).min_score []
          [halfScoreCandidate]).length ∧
    (processSearchResults ResearchMode.quick false [] [halfScoreCandidate]).2.map
        DocumentSource.id =
      (rankedGroups ResearchMode.quick false [] [halfScoreCandidate]).map Prod.fst ∧
    List.Pairwise (fun a b => b.2.best_score ≤ a.2.best_score)
      (rankedGroups ResearchMode.quick false [] [halfScoreCandidate]) :=
  citation_numbers_contiguous ResearchMode.quick false [] [halfScoreCandidate]
    (by rw [halfScoreCandidate_sources]; simp)

/-! ## Retrieval failure vs. cancellation (C9) -/

/-- C9: a failed retrieval task short-circuits the turn with the
degraded-service error event and never yields an answer outcome, while a
cancelled task proceeds with no sources, no context and no error — the two
outcomes are observably distinct. -/
theorem ragFailure_short_circuits (mode : ResearchMode) (preFiltered : Bool)
    (queryTerms : List (List Char)) :
    resolveRagAwait mode preFiltered queryTerms RagAwaitResult.failed =
      TurnOutcome.errorResponse kbUnavailableMessage ∧
    (∀ (sources : List DocumentSource) (context : Option (List Char)),
      resolveRagAwait mode preFiltered queryTerms RagAwaitResult.failed ≠
        TurnOutcome.proceed sources context) ∧
    resolveRagAwait mode preFiltered queryTerms RagAwaitResult.cancelled =
      TurnOutcome.proceed [] none ∧
    (∀ msg : List Char,
      resolveRagAwait mode preFiltered queryTerms RagAwaitResult.cancelled ≠
        TurnOutcome.errorResponse msg) ∧
    (∀ (msg : List Char) (sources : List DocumentSource) (context : Option (List Char)),
      TurnOutcome.errorResponse msg ≠ TurnOutcome.proceed sources context) := by
  refine ⟨rfl, ?_, rfl, ?_, ?_⟩ <;> intros <;> simp [resolveRagAwait]

/-! ## Query-rewrite fallbacks (C8) -/

/-- C8: the rewriter is a total function of its inputs (exceptions from the
external call appear only as the `failed` outcome), and it returns the
current message unchanged whenever there is no prior user message, the
external call fails, or the call returns text that is empty after
stripping. -/
theorem rewrite_fallbacks (currentMessage : List Char) (contextMessages : List Message)
    (mistralKey : Option String) (call : RewriteCallResult)
    (h : (contextMessages.filter (fun m => m.role = MessageRole.user)) = [] ∨
      call = RewriteCallResult.failed ∨
      (∃ text, call = RewriteCallResult.ok text ∧ stripQuotes (pyStrip text) = [])) :
    rewriteSearchQuery currentMessage contextMessages mistralKey call = currentMessage := by
  unfold rewriteSearchQuery
  rcases h with h | h | ⟨text, hc, ht⟩
  · simp [h]
  · subst h
    split
    · rfl
    · cases mistralKey <;> rfl
  · subst hc
    split
    · rfl
    · cases mistralKey with
      | none => rfl
      | some k => simp [ht]

theorem rewrite_fallbacks_witness :
    rewriteSearchQuery "follow up".toList [] none RewriteCallResult.failed =
      "follow up".toList :=
  rewrite_fallbacks "follow up".toList [] none RewriteCallResult.failed (Or.inl rfl)

/-! ## Entity filter built from the first detected entity only (C10) -/

/-- C10: with no caller-supplied document IDs and at least two detected
entities, the search filter is exactly the instructor-document lookup of
the first detected entity; the lookup results of every other entity are
irrelevant to the filter (any lookup agreeing on the first entity produces
the same filter). -/
theorem entity_filter_first_only (requestDocIds : Option (List String))
    (message : List Char) (idx : List (List Char))
    (docsByInstructor : List Char → List String) (e : List Char)
    (rest : List (List Char))
    (hreq : effectiveRequestDocIds requestDocIds = none)
    (hex : extractPersonNames message idx = e :: rest)
    (hrest : rest ≠ [])
    (hdocs : docsByInstructor e ≠ []) :
    searchDocIdsFor requestDocIds message idx docsByInstructor =
      some (docsByInstructor e) ∧
    (∀ g : List Char → List String, g e = docsByInstructor e →
      searchDocIdsFor requestDocIds message idx g = some (docsByInstructor e)) ∧
    (∀ d : String,
      d ∈ (searchDocIdsFor requestDocIds message idx docsByInstructor).getD [] ↔
        d ∈ docsByInstructor e) := by
  have key : ∀ g : List Char → List String, g e = docsByInstructor e →
      searchDocIdsFor requestDocIds message idx g = some (docsByInstructor e) := by
    intro g hg
    unfold searchDocIdsFor
    rw [hreq, hex]
    show (if g e = [] then none else some (g e)) = some (docsByInstructor e)
    rw [hg]
    exact if_neg hdocs
  refine ⟨key docsByInstructor rfl, key, ?_⟩
  intro d
  rw [key docsByInstructor rfl]
  rfl

theorem entity_filter_first_only_witness :
    searchDocIdsFor none "alice smith and bob jones".toList
      ["alice smith".toList, "bob jones".toList]
      (fun s => if s = "alice smith".toList then ["d1", "d2"] else ["dX"]) =
      some ["d1", "d2"] :=
  (entity_filter_first_only none "alice smith and bob jones".toList
    ["alice smith".toList, "bob jones".toList]
    (fun s => if s = "alice smith".toList then ["d1", "d2"] else ["dX"])
    "alice smith".toList ["bob jones".toList]
    rfl (by decide) (by decide) (by decide)).1

/-! ## Non-overlap of accepted extractor windows (C7) -/

/-- Two token windows (start, width) occupy disjoint position sets. -/
def WindowsDisjoint (p q : Nat × Nat) : Prop :=
  ∀ a b, a < p.2 → b < q.2 → p.1 + a ≠ q.1 + b

/-- Every position of every accepted window has been marked used. -/
def UsedCovers (st : ExtractState) : Prop :=
  ∀ p ∈ st.accepted, ∀ k, k < p.2 → p.1 + k ∈ st.used

def ExtractInv (st : ExtractState) : Prop :=
  UsedCovers st ∧ List.Pairwise WindowsDisjoint st.accepted

theorem passStep_inv (tokens idx : List (List Char)) (n : Nat) (st : ExtractState)
    (i : Nat) (h : ExtractInv st) : ExtractInv (passStep tokens idx n st i) := by
  unfold passStep
  split
  · exact h
  · rename_i hguard
    split
    · obtain ⟨hcov, hpw⟩ := h
      have hfree : ∀ k, k < n → (i + k) ∉ st.used := by
        intro k hk hmem
        apply hguard
        simp only [List.any_eq_true, decide_eq_true_eq]
        exact ⟨k, List.mem_range.mpr hk, hmem⟩
      constructor
      · intro p hp k hk
        show p.1 + k ∈ st.used ++ (List.range n).map (i + ·)
        have hp' : p ∈ st.accepted ++ [(i, n)] := hp
        rcases List.mem_append.mp hp' with hmem | hmem
        · exact List.mem_append_left _ (hcov p hmem k hk)
        · have : p = (i, n) := by simpa using hmem
          subst this
          refine List.mem_append_right _ ?_
          exact List.mem_map.mpr ⟨k, List.mem_range.mpr hk, rfl⟩
      · show List.Pairwise WindowsDisjoint (st.accepted ++ [(i, n)])
        rw [List.pairwise_append]
        refine ⟨hpw, List.pairwise_singleton _ _, ?_⟩
        intro p hp q hq
        have hq' : q = (i, n) := by simpa using hq
        subst hq'
        intro a b ha hb heq
        exact hfree b hb (heq ▸ hcov p hp a ha)
    · exact h

theorem foldl_passStep_inv (tokens idx : List (List Char)) (n : Nat) :
    ∀ (l : List Nat) (st : ExtractState), ExtractInv st →
      ExtractInv (l.foldl (passStep tokens idx n) st) := by
  intro l
  induction l with
  | nil => intro st h; exact h
  | cons i l ih =>
    intro st h
    exact ih _ (passStep_inv tokens idx n st i h)

theorem passStep_accepted (tokens idx : List (List Char)) (n : Nat) (st : ExtractState)
    (i : Nat) :
    (passStep tokens idx n st i).accepted = st.accepted ∨
    (passStep tokens idx n st i).accepted = st.accepted ++ [(i, n)] := by
  unfold passStep
  split
  · exact Or.inl rfl
  · split
    · exact Or.inr rfl
    · exact Or.inl rfl

theorem foldl_passStep_accepted (tokens idx : List (List Char)) (n : Nat) :
    ∀ (l : List Nat) (st : ExtractState),
      ∃ t, (l.foldl (passStep tokens idx n) st).accepted = st.accepted ++ t ∧
        ∀ p ∈ t, p.2 = n := by
  intro l
  induction l with
  | nil =>
    intro st
    exact ⟨[], by simp, by simp⟩
  | cons i l ih =>
    intro st
    obtain ⟨t, ht, hw⟩ := ih (passStep tokens idx n st i)
    rcases passStep_accepted tokens idx n st i with hs | hs
    · exact ⟨t, by rw [List.foldl_cons, ht, hs], hw⟩
    · refine ⟨(i, n) :: t, ?_, ?_⟩
      · rw [List.foldl_cons, ht, hs, List.append_assoc]
        rfl
      · intro p hp
        rcases List.mem_cons.mp hp with hp | hp
        · rw [hp]
        · exact hw p hp

theorem runPass_accepted (tokens idx : List (List Char)) (n : Nat) (st : ExtractState) :
    ∃ t, (runPass tokens idx n st).accepted = st.accepted ++ t ∧ ∀ p ∈ t, p.2 = n :=
  foldl_passStep_accepted tokens idx n _ st

/-- Every found name is the normalized window of some accepted window. -/
def FoundCovered (tokens : List (List Char)) (st : ExtractState) : Prop :=
  ∀ s ∈ st.found, ∃ p, p ∈ st.accepted ∧ s = normJoin ((tokens.drop p.1).take p.2)

theorem passStep_found (tokens idx : List (List Char)) (n : Nat) (st : ExtractState)
    (i : Nat) (h : FoundCovered tokens st) :
    FoundCovered tokens (passStep tokens idx n st i) := by
  unfold passStep
  split
  · exact h
  · split
    · intro s hs
      show ∃ p, p ∈ st.accepted ++ [(i, n)] ∧
        s = normJoin ((tokens.drop p.1).take p.2)
      have hs' : s ∈ insertFound (normJoin ((tokens.drop i).take n)) st.found := hs
      unfold insertFound at hs'
      by_cases hmem : normJoin ((tokens.drop i).take n) ∈ st.found
      · rw [if_pos hmem] at hs'
        obtain ⟨p, hp, he⟩ := h s hs'
        exact ⟨p, List.mem_append_left _ hp, he⟩
      · rw [if_neg hmem] at hs'
        rcases List.mem_append.mp hs' with hs2 | hs2
        · obtain ⟨p, hp, he⟩ := h s hs2
          exact ⟨p, List.mem_append_left _ hp, he⟩
        · have : s = normJoin ((tokens.drop i).take n) := by simpa using hs2
          exact ⟨(i, n), List.mem_append_right _ (by simp), this⟩
    · exact h

theorem foldl_passStep_found (tokens idx : List (List Char)) (n : Nat) :
    ∀ (l : List Nat) (st : ExtractState), FoundCovered tokens st →
      FoundCovered tokens (l.foldl (passStep tokens idx n) st) := by
  intro l
  induction l with
  | nil => intro st h; exact h
  | cons i l ih =>
    intro st h
    exact ih _ (passStep_found tokens idx n st i h)

/-- C7: the extractor returns empty on queries with fewer than two
alphabetic tokens; its accepted windows are the 3-word-pass windows
followed by the 2-word-pass windows (3-word matching runs first), and no
two accepted windows overlap in token positions — in particular the three
positions of an accepted 3-word match never participate in an accepted
2-word match. -/
theorem extractor_no_overlap (query : List Char) (idx : List (List Char)) :
    ((alphaTokens query).length < 2 → extractPersonNames query idx = []) ∧
    List.Pairwise WindowsDisjoint (extractRun query idx).accepted ∧
    (∃ t3 t2, (extractRun query idx).accepted = t3 ++ t2 ∧
      (∀ p ∈ t3, p.2 = 3) ∧ (∀ p ∈ t2, p.2 = 2)) ∧
    FoundCovered (alphaTokens query) (extractRun query idx) := by
  have hinv0 : ExtractInv { found := [], used := [], accepted := [] } :=
    ⟨fun p hp => absurd hp (by simp), List.Pairwise.nil⟩
  refine ⟨?_, ?_, ?_, ?_⟩
  · intro hlt
    unfold extractPersonNames extractRun
    rw [if_pos hlt]
  · unfold extractRun
    split
    · exact List.Pairwise.nil
    · split
      · exact List.Pairwise.nil
      · exact (foldl_passStep_inv _ _ 2 _ _ (foldl_passStep_inv _ _ 3 _ _ hinv0)).2
  · unfold extractRun
    split
    · exact ⟨[], [], rfl, by simp, by simp⟩
    · split
      · exact ⟨[], [], rfl, by simp, by simp⟩
      · obtain ⟨t3, h3, hw3⟩ := runPass_accepted (alphaTokens query) idx 3
          { found := [], used := [], accepted := [] }
        obtain ⟨t2, h2, hw2⟩ := runPass_accepted (alphaTokens query) idx 2
          (runPass (alphaTokens query) idx 3 { found := [], used := [], accepted := [] })
        refine ⟨t3, t2, ?_, hw3, hw2⟩
        rw [h2, h3]
        simp
  · unfold extractRun
    split
    · intro s hs
      simp at hs
    · split
      · intro s hs
        simp at hs
      · exact foldl_passStep_found _ _ 2 _ _
          (foldl_passStep_found _ _ 3 _ _ (fun s hs => absurd hs (by simp)))

theorem extractor_no_overlap_witness :
    extractPersonNames "hi".toList ["bruce usher".toList] = [] :=
  (extractor_no_overlap "hi".toList ["bruce usher".toList]).1 (by decide)

/-! ## Sanitizer lemma kit (C5, C6) -/

/-- No two adjacent characters are both spaces. -/
def noDoubleSpace : List Char → Bool
  | [] => true
  | [_] => true
  | c1 :: c2 :: rest =>
    !(c1 = ' ' && c2 = ' ') && noDoubleSpace (c2 :: rest)

theorem dropWhile_head_false {p : Char → Bool} :
    ∀ l : List Char, l.dropWhile p = [] ∨
      ∃ c t, l.dropWhile p = c :: t ∧ p c = false := by
  intro l
  induction l with
  | nil => exact Or.inl rfl
  | cons a t ih =>
    by_cases hp : p a = true
    · rw [List.dropWhile_cons, if_pos hp]
      exact ih
    · rw [List.dropWhile_cons, if_neg hp]
      exact Or.inr ⟨a, t, rfl, by simpa using hp⟩

theorem dropWhile_eq_self_of_head {p : Char → Bool} {c : Char} {t : List Char}
    (h : p c = false) : List.dropWhile p (c :: t) = c :: t := by
  rw [List.dropWhile_cons, h]
  simp

theorem stripCitations_nil : stripCitations [] = [] := by
  simp [stripCitations]

theorem stripCitations_cons_some {rest r : List Char}
    (h : tryCitation rest = some r) :
    stripCitations ('[' :: rest) = stripCitations r := by
  rw [stripCitations]
  split
  · split
    · rename_i heq
      rw [h] at heq
      cases heq
      rfl
    · rename_i heq
      rw [h] at heq
      cases heq
  · rename_i hfalse
    exact absurd rfl hfalse

theorem stripCitations_cons_none {rest : List Char}
    (h : tryCitation rest = none) :
    stripCitations ('[' :: rest) = '[' :: stripCitations rest := by
  rw [stripCitations]
  split
  · split
    · rename_i heq
      rw [h] at heq
      cases heq
    · rfl
  · rename_i hfalse
    exact absurd rfl hfalse

theorem stripCitations_cons_ne {c : Char} {rest : List Char} (h : ¬ c = '[') :
    stripCitations (c :: rest) = c :: stripCitations rest := by
  rw [stripCitations]
  split
  · rename_i htrue
    exact absurd htrue h
  · rfl

/-- A single `re.sub` pass leaves citation-free text unchanged. -/
theorem stripCitations_id : ∀ l : List Char, hasCitation l = false →
    stripCitations l = l := by
  intro l
  induction l using stripCitations.induct with
  | case1 => exact fun _ => stripCitations_nil
  | case2 rest r htc ih =>
    intro h
    rw [hasCitation, if_pos rfl, htc] at h
    simp at h
  | case3 rest htc ih =>
    intro h
    rw [hasCitation, if_pos rfl, htc] at h
    simp at h
    rw [stripCitations_cons_none htc, ih h]
  | case4 c rest hc ih =>
    intro h
    rw [hasCitation, if_neg hc] at h
    rw [stripCitations_cons_ne hc, ih h]

/-- The leading character surviving `strip()` is not whitespace. -/
theorem pyStrip_head {x : List Char} {c : Char} {t : List Char}
    (h : pyStrip x = c :: t) : isPySpace c = false := by
  unfold pyStrip at h
  set u := x.dropWhile isPySpace with hu
  set w := u.reverse.dropWhile isPySpace with hw
  have hwne : w ≠ [] := by
    intro h0
    rw [h0] at h
    cases h
  have hlast : w.getLast? = some c := by
    rw [← List.head?_reverse, h]
    rfl
  obtain ⟨s, hs⟩ : w <:+ u.reverse := List.dropWhile_suffix isPySpace
  have hgl : u.reverse.getLast? = some c := by
    rw [← hs, List.getLast?_append, hlast]
    rfl
  have hhead : u.head? = some c := by
    rw [← List.getLast?_reverse, hgl]
  rcases dropWhile_head_false (p := isPySpace) x with h0 | ⟨d, t', hdt, hd⟩
  · rw [← hu] at h0
    rw [h0] at hhead
    cases hhead
  · rw [← hu] at hdt
    rw [hdt] at hhead
    cases hhead
    exact hd

/-- The trailing character surviving `strip()` is not whitespace. -/
theorem pyStrip_last {x : List Char} {c : Char} {m : List Char}
    (h : pyStrip x = m ++ [c]) : isPySpace c = false := by
  unfold pyStrip at h
  set u := x.dropWhile isPySpace with hu
  set w := u.reverse.dropWhile isPySpace with hw
  have hwc : w = c :: m.reverse := by
    have := congrArg List.reverse h
    simpa using this
  rcases dropWhile_head_false (p := isPySpace) u.reverse with h0 | ⟨d, t', hdt, hd⟩
  · rw [← hw] at h0
    rw [h0] at hwc
    cases hwc
  · rw [← hw] at hdt
    rw [hdt] at hwc
    cases hwc
    exact hd

/-- A string that neither starts nor ends with whitespace is unchanged by
`strip()`. -/
theorem pyStrip_fixed : ∀ w : List Char,
    (∀ c, w.head? = some c → isPySpace c = false) →
    (∀ c, w.getLast? = some c → isPySpace c = false) →
    pyStrip w = w := by
  intro w hhead hlast
  cases w with
  | nil => rfl
  | cons c t =>
    have hc : isPySpace c = false := hhead c rfl
    unfold pyStrip
    rw [dropWhile_eq_self_of_head hc]
    rcases List.eq_nil_or_concat (c :: t) with h0 | ⟨m, d, hmd⟩
    · cases h0
    · rw [List.concat_eq_append] at hmd
      have hd : isPySpace d = false := by
        refine hlast d ?_
        rw [hmd]
        exact List.getLast?_concat _
      rw [hmd]
      rw [List.reverse_append]
      simp only [List.reverse_cons, List.reverse_nil, List.nil_append,
        List.singleton_append]
      rw [dropWhile_eq_self_of_head hd]
      simp

theorem collapseAux_head_keep {c : Char} (h : ¬ c = ' ') (t : List Char) (b : Bool) :
    collapseAux b (c :: t) = c :: collapseAux false t := by
  simp [collapseAux, h]

theorem collapseAux_space_false (rest : List Char) :
    collapseAux false (' ' :: rest) = ' ' :: collapseAux true rest := by
  simp [collapseAux]

theorem collapseAux_space_true (rest : List Char) :
    collapseAux true (' ' :: rest) = collapseAux true rest := by
  simp [collapseAux]

theorem collapseAux_concat_keep {c : Char} (h : ¬ c = ' ') :
    ∀ (m : List Char) (b : Bool), ∃ m', collapseAux b (m ++ [c]) = m' ++ [c] := by
  intro m
  induction m with
  | nil =>
    intro b
    exact ⟨[], by simp [collapseAux, h]⟩
  | cons x xs ih =>
    intro b
    by_cases hx : x = ' '
    · subst hx
      cases b with
      | true => simpa [collapseAux] using ih true
      | false =>
        obtain ⟨m', hm'⟩ := ih true
        exact ⟨' ' :: m', by simp [collapseAux, hm']⟩
    · obtain ⟨m', hm'⟩ := ih false
      exact ⟨x :: m', by simp [collapseAux, hx, hm']⟩

theorem collapseAux_true_head : ∀ l : List Char,
    ¬ (collapseAux true l).head? = some ' ' := by
  intro l
  induction l with
  | nil => simp [collapseAux]
  | cons c rest ih =>
    by_cases hc : c = ' '
    · subst hc
      rw [collapseAux_space_true]
      exact ih
    · rw [collapseAux_head_keep hc]
      intro h
      cases h
      exact hc rfl

theorem noDoubleSpace_cons {c : Char} {l : List Char} :
    noDoubleSpace (c :: l) = true ↔
      ((l.head? = some ' ' → ¬ c = ' ') ∧ noDoubleSpace l = true) := by
  cases l with
  | nil => simp [noDoubleSpace]
  | cons d t =>
    by_cases hc : c = ' ' <;> by_cases hd : d = ' ' <;>
      simp [noDoubleSpace, hc, hd]

theorem collapseAux_noDouble : ∀ (l : List Char) (b : Bool),
    noDoubleSpace (collapseAux b l) = true := by
  intro l
  induction l with
  | nil => intro b; simp [collapseAux, noDoubleSpace]
  | cons c rest ih =>
    intro b
    by_cases hc : c = ' '
    · subst hc
      cases b with
      | true =>
        rw [collapseAux_space_true]
        exact ih true
      | false =>
        have hhd := collapseAux_true_head rest
        rw [collapseAux_space_false, noDoubleSpace_cons]
        exact ⟨fun h _ => hhd h, ih true⟩
    · rw [collapseAux_head_keep hc, noDoubleSpace_cons]
      refine ⟨fun _ h => hc h, ih false⟩

theorem collapseAux_id : ∀ (l : List Char) (b : Bool),
    noDoubleSpace l = true → (b = true → ¬ l.head? = some ' ') →
    collapseAux b l = l := by
  intro l
  induction l with
  | nil => intro b _ _; rfl
  | cons c rest ih =>
    intro b hnd hb
    by_cases hc : c = ' '
    · subst hc
      cases b with
      | true => exact absurd rfl (fun h => hb h rfl)
      | false =>
        have h1 := (noDoubleSpace_cons.mp hnd).1
        have h2 := (noDoubleSpace_cons.mp hnd).2
        rw [collapseAux_space_false, ih true h2 (fun _ hh => h1 hh rfl)]
    · have h2 := (noDoubleSpace_cons.mp hnd).2
      rw [collapseAux_head_keep hc, ih false h2 (by simp)]

theorem collapseSpaces_noDouble (l : List Char) :
    noDoubleSpace (collapseSpaces l) = true :=
  collapseAux_noDouble l false

theorem collapseSpaces_idem (l : List Char) :
    collapseSpaces (collapseSpaces l) = collapseSpaces l :=
  collapseAux_id (collapseSpaces l) false (collapseAux_noDouble l false) (by simp)

/-- The output of `strip` + collapse is a fixed point of `strip`. -/
theorem clean_pyStrip_fixed (x : List Char) :
    pyStrip (collapseSpaces (pyStrip x)) = collapseSpaces (pyStrip x) := by
  apply pyStrip_fixed
  · intro c hc
    cases hz : pyStrip x with
    | nil =>
      rw [hz] at hc
      simp [collapseSpaces, collapseAux] at hc
    | cons d t =>
      have hd : isPySpace d = false := pyStrip_head hz
      have hd' : ¬ d = ' ' := by
        intro h
        rw [h] at hd
        simp [isPySpace] at hd
      rw [hz] at hc
      rw [show collapseSpaces (d :: t) = d :: collapseAux false t from
        collapseAux_head_keep hd' t false] at hc
      cases hc
      exact hd
  · intro c hc
    cases hz : pyStrip x with
    | nil =>
      rw [hz] at hc
      simp [collapseSpaces, collapseAux] at hc
    | cons d t =>
      rcases List.eq_nil_or_concat (d :: t) with h0 | ⟨m, e, hme⟩
      · cases h0
      · rw [List.concat_eq_append] at hme
        have he : isPySpace e = false := pyStrip_last (by rw [hz, hme])
        have he' : ¬ e = ' ' := by
          intro h
          rw [h] at he
          simp [isPySpace] at he
        obtain ⟨m', hm'⟩ := collapseAux_concat_keep he' m false
        rw [hz, hme] at hc
        rw [show collapseSpaces (m ++ [e]) = m' ++ [e] from hm'] at hc
        rw [List.getLast?_concat] at hc
        cases hc
        exact he

theorem cutAtLastSpace_leading (l : List Char) : cutAtLastSpace l <+: l := by
  unfold cutAtLastSpace
  split
  · have h1 : (l.reverse.dropWhile (fun c => c ≠ ' ')).tail <:+ l.reverse :=
      (List.tail_suffix _).trans (List.dropWhile_suffix _)
    have h2 := List.reverse_prefix.mpr h1
    simpa using h2
  · exact List.prefix_rfl

/-! ## Sanitizer behaviour (C5) -/

/-- A 301-character assistant message. -/
def longAssistantMsg : Message :=
  { id := "a1", content := List.replicate 301 'a',
    role := MessageRole.assistant, timestamp := 0, provider := none }

/-- An assistant message whose content nests citation markers. -/
def nestedMarkerMsg : Message :=
  { id := "a2", content := ['[', '1', '[', '2', ']', '3', ']'],
    role := MessageRole.assistant, timestamp := 0, provider := none }

/-- C5 counterexample: (a) a 301-character assistant message sanitizes to
329 characters, not at most 300 — the truncation marker is appended after
cutting to 300, so the bound in the claim is exceeded; (b) the marker
removal is a single `re.sub` pass, so nested markers leave a residual
`[13]` which still matches `\[\d+\]`. -/
theorem sanitize_bound_cex :
    (sanitizeMessage longAssistantMsg).content.length = 329 ∧
    ¬ (329 : Nat) ≤ 300 ∧
    (sanitizeMessage nestedMarkerMsg).content = ['[', '1', '3', ']'] ∧
    hasCitation ['[', '1', '3', ']'] = true := by
  have h1 : stripCitations (List.replicate 301 'a') = List.replicate 301 'a' :=
    stripCitations_id _ (by decide)
  have h329 : (sanitizeContent (List.replicate 301 'a')).length = 329 := by
    simp only [sanitizeContent]
    rw [h1]
    decide
  have t1 : tryCitation ['1', '[', '2', ']', '3', ']'] = none := by decide
  have t2 : tryCitation ['2', ']', '3', ']'] = some ['3', ']'] := by decide
  have n1 : ¬ ('1' : Char) = '[' := by decide
  have n3 : ¬ ('3' : Char) = '[' := by decide
  have n4 : ¬ (']' : Char) = '[' := by decide
  have hs : stripCitations ['[', '1', '[', '2', ']', '3', ']'] = ['[', '1', '3', ']'] := by
    rw [stripCitations_cons_none t1, stripCitations_cons_ne n1,
      stripCitations_cons_some t2, stripCitations_cons_ne n3,
      stripCitations_cons_ne n4, stripCitations_nil]
  have e2 : sanitizeContent ['[', '1', '[', '2', ']', '3', ']'] = ['[', '1', '3', ']'] := by
    simp only [sanitizeContent]
    rw [hs]
    decide
  exact ⟨h329, by decide, e2, by decide⟩

/-- C5 amended: user messages pass through unmodified; an assistant message
is cleaned (one citation-sub pass, strip, space-run collapse — the result
has no double spaces), and when the cleaned text exceeds 300 characters the
output is a prefix of the cleaned text of at most 300 characters, cut at
the last space, with the 29-character literal marker appended — so the
output length is bounded by 329, not 300. -/
theorem sanitize_message_shape (m : Message) :
    (m.role = MessageRole.user → sanitizeMessage m = m) ∧
    (∀ msgs : List Message, sanitizeHistoryMessages msgs = msgs.map sanitizeMessage) ∧
    (m.role = MessageRole.assistant →
      noDoubleSpace (collapseSpaces (pyStrip (stripCitations m.content))) = true ∧
      ((collapseSpaces (pyStrip (stripCitations m.content))).length ≤ MAX_CHARS →
        (sanitizeMessage m).content = collapseSpaces (pyStrip (stripCitations m.content))) ∧
      (MAX_CHARS < (collapseSpaces (pyStrip (stripCitations m.content))).length →
        ∃ p, p <+: collapseSpaces (pyStrip (stripCitations m.content)) ∧
          p.length ≤ MAX_CHARS ∧
          (sanitizeMessage m).content = p ++ truncationMarker ∧
          (sanitizeMessage m).content.length ≤ MAX_CHARS + truncationMarker.length)) := by
  refine ⟨?_, fun msgs => rfl, ?_⟩
  · intro hu
    unfold sanitizeMessage
    rw [hu]
    simp
  · intro ha
    have hmc : (sanitizeMessage m).content = sanitizeContent m.content := by
      unfold sanitizeMessage
      rw [if_pos ha]

    refine ⟨collapseSpaces_noDouble _, ?_, ?_⟩
    · intro hle
      rw [hmc]
      simp only [sanitizeContent]
      rw [if_neg (by omega)]
    · intro hgt
      refine ⟨cutAtLastSpace
        ((collapseSpaces (pyStrip (stripCitations m.content))).take MAX_CHARS),
        ?_, ?_, ?_, ?_⟩
      · exact (cutAtLastSpace_leading _).trans (List.take_prefix _ _)
      · have hp := (cutAtLastSpace_leading
          ((collapseSpaces (pyStrip (stripCitations m.content))).take MAX_CHARS)).length_le
        have h2 : ((collapseSpaces (pyStrip (stripCitations m.content))).take
            MAX_CHARS).length ≤ MAX_CHARS := by
          rw [List.length_take]
          omega
        omega
      · rw [hmc]
        simp only [sanitizeContent]
        rw [if_pos (by omega)]
      · rw [hmc]
        simp only [sanitizeContent]
        rw [if_pos (by omega), List.length_append]
        have hp := (cutAtLastSpace_leading
          ((collapseSpaces (pyStrip (stripCitations m.content))).take MAX_CHARS)).length_le
        have h2 : ((collapseSpaces (pyStrip (stripCitations m.content))).take
            MAX_CHARS).length ≤ MAX_CHARS := by
          rw [List.length_take]
          omega
        omega

theorem sanitize_message_shape_witness :
    (sanitizeMessage longAssistantMsg).content.length ≤
      MAX_CHARS + truncationMarker.length := by
  obtain ⟨-, -, h3⟩ := sanitize_message_shape longAssistantMsg
  obtain ⟨-, -, h⟩ := h3 rfl
  have hlen : MAX_CHARS <
      (collapseSpaces (pyStrip (stripCitations longAssistantMsg.content))).length := by
    show MAX_CHARS <
      (collapseSpaces (pyStrip (stripCitations (List.replicate 301 'a')))).length
    rw [stripCitations_id _ (by decide)]
    decide
  obtain ⟨p, -, -, -, hle⟩ := h hlen
  exact hle

/-! ## Sanitizer idempotence (C6) -/

/-- C6 counterexample: the citation pass is not a fixed point on its own
output — `[1[2]3]` sanitizes to `[13]`, and sanitizing again removes the
residual marker, yielding the empty message, so re-running the sanitizer
changes content. -/
theorem sanitize_idempotent_cex :
    sanitizeHistoryMessages (sanitizeHistoryMessages [nestedMarkerMsg]) ≠
      sanitizeHistoryMessages [nestedMarkerMsg] := by
  have t1 : tryCitation ['1', '[', '2', ']', '3', ']'] = none := by decide
  have t2 : tryCitation ['2', ']', '3', ']'] = some ['3', ']'] := by decide
  have t3 : tryCitation ['1', '3', ']'] = some [] := by decide
  have n1 : ¬ ('1' : Char) = '[' := by decide
  have n3 : ¬ ('3' : Char) = '[' := by decide
  have n4 : ¬ (']' : Char) = '[' := by decide
  have hs : stripCitations ['[', '1', '[', '2', ']', '3', ']'] = ['[', '1', '3', ']'] := by
    rw [stripCitations_cons_none t1, stripCitations_cons_ne n1,
      stripCitations_cons_some t2, stripCitations_cons_ne n3,
      stripCitations_cons_ne n4, stripCitations_nil]
  have hs2 : stripCitations ['[', '1', '3', ']'] = [] := by
    rw [stripCitations_cons_some t3, stripCitations_nil]
  have e1 : sanitizeContent ['[', '1', '[', '2', ']', '3', ']'] = ['[', '1', '3', ']'] := by
    simp only [sanitizeContent]
    rw [hs]
    decide
  have e2 : sanitizeContent ['[', '1', '3', ']'] = [] := by
    simp only [sanitizeContent]
    rw [hs2]
    decide
  have l1 : sanitizeHistoryMessages [nestedMarkerMsg] =
      [{ id := "a2", content := ['[', '1', '3', ']'],
         role := MessageRole.assistant, timestamp := 0, provider := none }] := by
    simp [sanitizeHistoryMessages, sanitizeMessage, nestedMarkerMsg, e1]
  have l2 : sanitizeHistoryMessages
      [{ id := "a2", content := ['[', '1', '3', ']'],
         role := MessageRole.assistant, timestamp := 0, provider := none }] =
      [{ id := "a2", content := [],
         role := MessageRole.assistant, timestamp := 0, provider := none }] := by
    simp [sanitizeHistoryMessages, sanitizeMessage, e2]
  rw [l1, l2]
  decide

/-- C6 amended: the sanitizer is idempotent on message lists whose
assistant messages, after one pass, carry no residual citation marker and
were not truncated (cleaned length at most 300).  Outside these conditions
a second pass can strip a residual marker or truncate again. -/
theorem sanitize_idempotent_on (msgs : List Message)
    (h : ∀ m ∈ msgs, m.role = MessageRole.assistant →
      hasCitation (collapseSpaces (pyStrip (stripCitations m.content))) = false ∧
      (collapseSpaces (pyStrip (stripCitations m.content))).length ≤ MAX_CHARS) :
    sanitizeHistoryMessages (sanitizeHistoryMessages msgs) =
      sanitizeHistoryMessages msgs := by
  unfold sanitizeHistoryMessages
  rw [List.map_map]
  apply List.map_congr_left
  intro m hm
  show sanitizeMessage (sanitizeMessage m) = sanitizeMessage m
  by_cases ha : m.role = MessageRole.assistant
  · obtain ⟨hnc, hle⟩ := h m hm ha
    have hc1 : sanitizeMessage m =
        { id := m.id,
          content := collapseSpaces (pyStrip (stripCitations m.content)),
          role := m.role, timestamp := m.timestamp, provider := none } := by
      unfold sanitizeMessage
      rw [if_pos ha]
      have : sanitizeContent m.content =
          collapseSpaces (pyStrip (stripCitations m.content)) := by
        simp only [sanitizeContent]
        rw [if_neg (by omega)]
      rw [this]
    have h2 : sanitizeContent (collapseSpaces (pyStrip (stripCitations m.content))) =
        collapseSpaces (pyStrip (stripCitations m.content)) := by
      simp only [sanitizeContent]
      rw [stripCitations_id _ hnc, clean_pyStrip_fixed, collapseSpaces_idem]
      rw [if_neg (by omega)]
    rw [hc1]
    simp [sanitizeMessage, ha, h2]
  · unfold sanitizeMessage
    rw [if_neg ha, if_neg ha]

theorem sanitize_idempotent_on_witness :
    sanitizeHistoryMessages (sanitizeHistoryMessages
      [{ id := "u1", content := "hello".toList, role := MessageRole.user,
         timestamp := 0, provider := none },
       { id := "a1", content := "cats and dogs".toList,
         role := MessageRole.assistant, timestamp := 1, provider := none }]) =
      sanitizeHistoryMessages
      [{ id := "u1", content := "hello".toList, role := MessageRole.user,
         timestamp := 0, provider := none },
       { id := "a1", content := "cats and dogs".toList,
         role := MessageRole.assistant, timestamp := 1, provider := none }] := by
  apply sanitize_idempotent_on
  intro m hm ha
  rcases List.mem_cons.mp hm with h1 | hm2
  · rw [h1] at ha
    exact absurd ha (by decide)
  · rcases List.mem_cons.mp hm2 with h2 | h3
    · rw [h2]
      rw [show stripCitations "cats and dogs".toList = "cats and dogs".toList from
        stripCitations_id _ (by decide)]
      exact ⟨by decide, by decide⟩
    · simp at h3

end Qodex
